import Mathlib

/-!
Verification development for the pyodide host of chuk-virtual-shell.

Host and virtual filesystem paths are modelled as segment lists
(`List String`): Node's `path.join(a, b)` on already-normalized inputs
appends the segment `b`, and `path.basename` takes the final segment.
The host filesystem is modelled as a function from paths to entry kinds
plus a directory-listing function (`readdirSync`), so `fs.existsSync`,
`fs.statSync(..).isDirectory()` and `fs.readdirSync` are direct reads of
that model.
-/

namespace PyodideHost

abbrev Path := List String

/-- The final segment of a path, Node's `path.basename`. -/
def basename (p : Path) : String := p.getLastD ""

/-- The global hyphen-to-underscore replace, per character. -/
def hyphenToUnderscoreChar (c : Char) : Char :=
  if c = '-' then '_' else c

/-- The global hyphen-to-underscore replace applied to a single segment. -/
def hyphenToUnderscore (s : String) : String :=
  String.mk (s.toList.map hyphenToUnderscoreChar)

/-- The hidden-entry test `name.startsWith('.')`, char-level. -/
def isHiddenName (s : String) : Bool :=
  match s.toList with
  | [] => false
  | c :: _ => c = '.'

/-- The extension test `name.endsWith(".py")`, char-level. -/
def endsWithPy (s : String) : Bool :=
  match s.toList.reverse with
  | 'y' :: 'p' :: '.' :: _ => true
  | _ => false

/-- What the host filesystem holds at a path: nothing, a file, or a directory. -/
inductive EntryKind where
  | absent
  | file
  | directory
deriving DecidableEq

/-- Host filesystem model: entry kind per path, and `readdirSync` results
(`none` means `readdirSync` throws for that path). -/
structure HostFs where
  kind : Path → EntryKind
  listing : Path → Option (List String)

/-- Models `fs.existsSync(p)`. -/
def existsSync (fs : HostFs) (p : Path) : Bool :=
  match fs.kind p with
  | EntryKind.absent => false
  | _ => true

/-- Models `fs.statSync(p).isDirectory()` (on an existing path). -/
def isDirectorySync (fs : HostFs) (p : Path) : Bool :=
  match fs.kind p with
  | EntryKind.directory => true
  | _ => false

/-- The options object handed to `runPyodideShell` / `ScriptManager`.
JS `undefined` (and the falsy empty value, which the code treats the same
way via truthiness checks) is `none`. -/
structure ShellOptions where
  pythonModulePath : Option Path := none
  configPath : Option Path := none
  sandboxName : Option String := none
  useEnhancedScript : Bool := true
  customScriptPath : Option Path := none
  defaultSandbox : Option String := none

/-- Ambient process facts the source reads: `__dirname` of `src/`,
`process.cwd()`, and the `CHUK_VIRTUAL_SHELL_PATH` environment variable. -/
structure HostEnv where
  dirname : Path
  cwd : Path
  chukVirtualShellPath : Option Path := none

/-- The `possibleLocations` array of `locateVirtualShellDirectory`
(`.filter(Boolean)` drops an unset environment variable). -/
def possibleLocations (env : HostEnv) : List Path :=
  [[".", "chuk_virtual_shell"],
   ["..", "chuk_virtual_shell"],
   env.dirname ++ ["..", "node_modules", "chuk-virtual-shell"]] ++
  (match env.chukVirtualShellPath with
   | some p => [p]
   | none => [])

/-- Function `isValidPythonModule` from `src/pyodideShell.js`: the path must exist and
be a directory, then either contain `__init__.py` or list at least one
`.py` file (a throwing `readdirSync` yields `false`). -/
def isValidPythonModule (fs : HostFs) (dirPath : Path) : Bool :=
  if !(existsSync fs dirPath) || !(isDirectorySync fs dirPath) then
    false
  else if existsSync fs (dirPath ++ ["__init__.py"]) then
    true
  else
    match fs.listing dirPath with
    | some files => files.any (fun file => endsWithPy file)
    | none => false

/-- The fixed message of the error thrown when no location qualifies. -/
def virtualShellNotFoundMessage : String :=
  "Error: could not find 'chuk_virtual_shell' Python module. Please specify a valid path."

/-- Function `locateVirtualShellDirectory` from `src/pyodideShell.js`.  A supplied
`pythonModulePath` that exists is inspected for one level of nested
packaging (`outer/<basename with hyphens folded to underscores>`); failing
that the fixed fallback locations are scanned for the first that exists and
passes `isValidPythonModule`; otherwise the fixed error is thrown. -/
def locateVirtualShellDirectory (fs : HostFs) (env : HostEnv)
    (options : ShellOptions) : Except String Path :=
  let fallback : Except String Path :=
    match (possibleLocations env).find?
        (fun location => existsSync fs location && isValidPythonModule fs location) with
    | some location => Except.ok location
    | none => Except.error virtualShellNotFoundMessage
  match options.pythonModulePath with
  | some outerPath =>
    if existsSync fs outerPath then
      let baseName := hyphenToUnderscore (basename outerPath)
      let innerPath := outerPath ++ [baseName]
      if existsSync fs innerPath && isDirectorySync fs innerPath then
        Except.ok innerPath
      else
        Except.ok outerPath
    else fallback
  | none => fallback

/-- The package-name derivation of `loadVirtualShell`: the resolved module
directory together with `path.basename(moduleDir)`. -/
def resolvePackage (fs : HostFs) (env : HostEnv) (options : ShellOptions) :
    Except String (Path × String) :=
  (locateVirtualShellDirectory fs env options).map (fun dir => (dir, basename dir))

/-- Substring test on strings, via their character lists. -/
def subListOf (needle haystack : List Char) : Bool :=
  match haystack with
  | [] => needle.isEmpty
  | _ :: rest => needle.isPrefixOf haystack || subListOf needle rest

def containsSub (needle haystack : String) : Bool :=
  subListOf needle.toList haystack.toList

/-- Render a segment path the way the source's strings read. -/
def renderPath (p : Path) : String := String.intercalate "/" p

/-! ## ScriptManager (`src/scriptManager.js`) -/

/-- Models `this.scriptBasePath = path.join(__dirname, '..', 'python_scripts')`. -/
def scriptBasePath (env : HostEnv) : Path :=
  env.dirname ++ ["..", "python_scripts"]

/-- Message of the error thrown when no script can be found at all. -/
def scriptNotFoundMessage : String :=
  "Could not find any Python scripts. Make sure the python_scripts directory exists and contains the required files."

/-- The variant-to-filename choice of `getScriptPath`. -/
def scriptFileNameFor (scriptType : String) : String :=
  if scriptType = "enhanced" then "pyodide_enhanced_main.py"
  else "pyodide_basic_main.py"

/-- The `alternateLocations` array of `getScriptPath`. -/
def alternateLocationsFor (env : HostEnv) (scriptFileName : String) : List Path :=
  [env.cwd ++ ["python_scripts", scriptFileName],
   env.cwd ++ [scriptFileName],
   env.dirname ++ [scriptFileName]]

/-- Method `ScriptManager.getScriptPath` from `src/scriptManager.js`: an existing
custom script path wins; otherwise the variant-named script is looked up in
the primary scripts directory, then in the three alternate locations, then
the basic script in the primary directory is the silent fallback; only when
all of those are missing is the error thrown. -/
def getScriptPath (fs : HostFs) (env : HostEnv) (options : ShellOptions)
    (scriptType : String) : Except String Path :=
  let fromBuiltins : Except String Path :=
    let scriptFileName := scriptFileNameFor scriptType
    let scriptPath := scriptBasePath env ++ [scriptFileName]
    if existsSync fs scriptPath then
      Except.ok scriptPath
    else
      match (alternateLocationsFor env scriptFileName).find?
          (fun location => existsSync fs location) with
      | some location => Except.ok location
      | none =>
        let basicScriptPath := scriptBasePath env ++ ["pyodide_basic_main.py"]
        if existsSync fs basicScriptPath then
          Except.ok basicScriptPath
        else
          Except.error scriptNotFoundMessage

  match options.customScriptPath with
  | some customPath =>
    if existsSync fs customPath then Except.ok customPath else fromBuiltins
  | none => fromBuiltins

/-! ## Placeholder substitution (`processScriptContent`)

`processScriptContent` runs the global regex replace of
`$\x7b...\x7d` tokens over the script body: at each match the token's
inner name is looked up; the two sandbox keys resolve to
`this.options.defaultSandbox || 'ai_sandbox'` (JS falsy test, so an
unset or empty option yields the literal fallback), any other name
keeps the matched token verbatim.  The scan is modelled on character
lists with exact JS regex semantics: a match is a dollar and open
brace, a nonempty run of non-close-brace characters, and a close
brace; scanning resumes after the match, and a failed match position
advances by one character. -/

/-- The value `this.options.defaultSandbox || 'ai_sandbox'`. -/
def defaultSandboxValue (sandbox : Option String) : String :=
  match sandbox with
  | some v => if v = "" then "ai_sandbox" else v
  | none => "ai_sandbox"

/-- Split a character list at the first close brace: returns the run of
characters before it and the remainder after it. -/
def splitAtCloseBrace : List Char → Option (List Char × List Char)
  | [] => none
  | c :: rest =>
    if c = '\x7d' then some ([], rest)
    else
      match splitAtCloseBrace rest with
      | some (varName, after) => some (c :: varName, after)
      | none => none

theorem splitAtCloseBrace_length (l varName after : List Char)
    (h : splitAtCloseBrace l = some (varName, after)) :
    l.length = varName.length + 1 + after.length := by
  induction l generalizing varName after with
  | nil => simp [splitAtCloseBrace] at h
  | cons c rest ih =>
    rw [splitAtCloseBrace] at h
    by_cases hc : c = '\x7d'
    · simp [hc] at h
      obtain ⟨h1, h2⟩ := h
      subst h1
      subst h2
      simp
      omega
    · simp [hc] at h
      rcases hsp : splitAtCloseBrace rest with _ | ⟨v, a⟩
      · rw [hsp] at h
        simp at h
      · rw [hsp] at h
        simp at h
        obtain ⟨h1, h2⟩ := h
        have := ih v a hsp
        simp [← h1, ← h2, this]
        omega

/-- The replacement for one matched token: the two sandbox keys resolve to
the sandbox value, any other inner name keeps the token verbatim. -/
def resolveToken (sandbox : Option String) (varName : List Char) : List Char :=
  if varName = "options.defaultSandbox".toList ∨ varName = "defaultSandbox".toList then
    (defaultSandboxValue sandbox).toList
  else
    '$' :: '\x7b' :: varName ++ ['\x7d']

/-- The regex-replace scan of `processScriptContent`, over characters: at a
dollar followed by an open brace, a nonempty run of non-close-brace
characters closed by a close brace is a match, whose replacement is
emitted before scanning resumes after the match; any position where no
match starts emits its character and the scan moves one character on. -/
def processChars (sandbox : Option String) : List Char → List Char
  | [] => []
  | c :: rest =>
    if c = '$' then
      match hrest : rest with
      | '\x7b' :: rest2 =>
        match hs : splitAtCloseBrace rest2 with
        | some (varName, after) =>
          if varName = [] then c :: processChars sandbox ('\x7b' :: rest2)
          else resolveToken sandbox varName ++ processChars sandbox after
        | none => c :: processChars sandbox ('\x7b' :: rest2)
      | _ => c :: processChars sandbox rest
    else c :: processChars sandbox rest
termination_by l => l.length
decreasing_by
  all_goals simp_all
  all_goals (have hlen := splitAtCloseBrace_length _ _ _ hs; omega)

/-- Method `processScriptContent` from `src/scriptManager.js`. -/
def processScriptContent (sandbox : Option String) (content : String) : String :=
  String.mk (processChars sandbox content.toList)

/-- The characters of a placeholder token with the given inner name: a
dollar, an open brace, the name, a close brace. -/
def placeholderToken (name : List Char) : List Char :=
  '$' :: '\x7b' :: name ++ ['\x7d']

/-! ## FsBridge (`src/pyodideFs.js`)

A host directory is a listed sequence of named entries (the order
`readdirSync` reports).  `broken` marks an entry on which `statSync` or
`readFileSync` throws; `processDirectory` wraps its whole
read-and-iterate loop in one try/catch, so such an exception abandons
the remainder of that one directory's listing while the recursion
elsewhere continues.  The side effects on the embedded runtime's
filesystem are recorded as an ordered action list. -/

inductive HostEntry where
  | file (content : List Nat)
  | broken
  | dir (entries : List (String × HostEntry))

/-- One side effect on the Pyodide virtual filesystem: a recursive
`os.makedirs(..., exist_ok=True)` or a file write with the given bytes. -/
inductive VAction where
  | mkdir (p : Path)
  | writeFile (p : Path) (data : List Nat)
deriving DecidableEq

/-! ### The base64 transfer encoding of `copyFileToPyodide`

`copyFileToPyodide` sends content as `Buffer.from(content).toString("base64")`
and the Python side recovers it with `base64.b64decode(...)`; both are
modelled bytewise. -/

/-- The base64 alphabet: sextet index to ASCII code. -/
def b64char (n : Nat) : Nat :=
  if n < 26 then 65 + n
  else if n < 52 then 97 + (n - 26)
  else if n < 62 then 48 + (n - 52)
  else if n = 62 then 43
  else 47

/-- ASCII code back to sextet index (on alphabet characters). -/
def b64val (c : Nat) : Nat :=
  if 65 ≤ c ∧ c ≤ 90 then c - 65
  else if 97 ≤ c ∧ c ≤ 122 then 26 + (c - 97)
  else if 48 ≤ c ∧ c ≤ 57 then 52 + (c - 48)
  else if c = 43 then 62
  else 63

/-- Models `Buffer.prototype.toString("base64")`: three bytes to four characters,
with `=` (ASCII 61) padding for a short final group. -/
def b64encode : List Nat → List Nat
  | [] => []
  | [a] => [b64char (a / 4), b64char (a % 4 * 16), 61, 61]
  | [a, b] => [b64char (a / 4), b64char (a % 4 * 16 + b / 16), b64char (b % 16 * 4), 61]
  | a :: b :: c :: rest =>
    b64char (a / 4) :: b64char (a % 4 * 16 + b / 16) ::
      b64char (b % 16 * 4 + c / 64) :: b64char (c % 64) :: b64encode rest

/-- Modelled from the spec's external interface: Python's
`base64.b64decode` on padded base64 text (the runtime-side half of the
binary-safe transfer; its code lives in the embedded runtime's standard
library, not in this repository). -/
def b64decode : List Nat → List Nat
  | p :: q :: r :: s :: rest =>
    if r = 61 then [b64val p * 4 + b64val q / 16]
    else if s = 61 then
      [b64val p * 4 + b64val q / 16, b64val q % 16 * 16 + b64val r / 4]
    else
      (b64val p * 4 + b64val q / 16) :: (b64val q % 16 * 16 + b64val r / 4) ::
        (b64val r % 4 * 64 + b64val s) :: b64decode rest
  | _ => []

/-- The actions `copyFileToPyodide` performs: make the parent directory,
then write the base64-decoded transfer of the host content. -/
def copyFileActions (content : List Nat) (targetPath : Path) : List VAction :=
  [VAction.mkdir targetPath.dropLast,
   VAction.writeFile targetPath (b64decode (b64encode content))]

/-! ### The JSON-literal transfer encoding of `loadFolder` -/

/-- Hex digit of a nibble, lowercase (as `JSON.stringify` prints). -/
def toHexDigit (n : Nat) : Nat := if n < 10 then 48 + n else 87 + n

/-- Value of a hex digit character. -/
def hexDigitVal (d : Nat) : Nat := if d ≤ 57 then d - 48 else d - 87

/-- The escaping `JSON.stringify` applies to one string character (code unit):
quote and backslash get escaped, the five short control escapes are used,
the remaining control characters become `\u00xx`, everything else is
emitted verbatim. -/
def jsonEscapeChar (c : Nat) : List Nat :=
  if c = 34 then [92, 34]
  else if c = 92 then [92, 92]
  else if c = 8 then [92, 98]
  else if c = 9 then [92, 116]
  else if c = 10 then [92, 110]
  else if c = 12 then [92, 102]
  else if c = 13 then [92, 114]
  else if c < 32 then [92, 117, 48, 48, toHexDigit (c / 16), toHexDigit (c % 16)]
  else [c]

/-- The body of `JSON.stringify(content)` (between its delimiting quotes). -/
def jsonEscape : List Nat → List Nat
  | [] => []
  | c :: rest => jsonEscapeChar c ++ jsonEscape rest

/-- Modelled from the spec's external interface: the embedded runtime's
parsing of a double-quoted string literal body (the `f.write(<literal>)`
injected by `loadFolder`); restricted to the escape forms `JSON.stringify`
emits, plus pass-through of other characters. -/
def pyUnescape : List Nat → List Nat
  | [] => []
  | [c] => [c]
  | c :: d :: rest =>
    if c = 92 then
      if d = 117 then
        match hrest : rest with
        | h1 :: h2 :: h3 :: h4 :: r =>
          (hexDigitVal h1 * 4096 + hexDigitVal h2 * 256 +
            hexDigitVal h3 * 16 + hexDigitVal h4) :: pyUnescape r
        | _ => 92 :: pyUnescape (d :: rest)
      else if d = 34 then 34 :: pyUnescape rest
      else if d = 92 then 92 :: pyUnescape rest
      else if d = 98 then 8 :: pyUnescape rest
      else if d = 116 then 9 :: pyUnescape rest
      else if d = 110 then 10 :: pyUnescape rest
      else if d = 102 then 12 :: pyUnescape rest
      else if d = 114 then 13 :: pyUnescape rest
      else 92 :: pyUnescape (d :: rest)
    else c :: pyUnescape (d :: rest)
termination_by l => l.length
decreasing_by all_goals (simp_all; try omega)


/-- The actions `loadFolder` performs for one regular file: make the parent
directory, then write the JSON-escaped-then-parsed transfer of the content. -/
def loadFolderFileActions (content : List Nat) (destFilePath : Path) : List VAction :=
  [VAction.mkdir destFilePath.dropLast,
   VAction.writeFile destFilePath (pyUnescape (jsonEscape content))]

/-! ### The recursive walk of `processDirectory` -/

/-- The body of `processDirectory`'s try/catch-wrapped loop over one
directory listing.  Hidden names are skipped before anything touches the
entry; a directory entry recurses (the recursive call makes its own target
directory first); a `.py` file entry is copied and counted; a `broken`
entry throws out of the loop to the catch, which keeps the count
accumulated so far and performs nothing further in this listing. -/
def processEntries : Path → List (String × HostEntry) → Nat × List VAction
  | _, [] => (0, [])
  | base, (name, entry) :: rest =>
    if isHiddenName name then processEntries base rest
    else
      match entry with
      | HostEntry.broken => (0, [])
      | HostEntry.dir sub =>
        let subR := processEntries (base ++ [name]) sub
        let restR := processEntries base rest
        (subR.1 + restR.1, (VAction.mkdir (base ++ [name]) :: subR.2) ++ restR.2)
      | HostEntry.file content =>
        if endsWithPy name then
          let restR := processEntries base rest
          (1 + restR.1, copyFileActions content (base ++ [name]) ++ restR.2)
        else processEntries base rest

/-- Function `processDirectory` from `src/pyodideFs.js`: create the target virtual
directory, then walk the listing. -/
def processDirectory (base : Path) (entries : List (String × HostEntry)) :
    Nat × List VAction :=
  let r := processEntries base entries
  (r.1, VAction.mkdir base :: r.2)

/-- Function `loadPythonModules` applied to an already-located module directory with
target name `dirBaseName`: it creates `./dirBaseName` and hands off to
`processDirectory` on the same target, returning that file count. -/
def loadPythonModules (entries : List (String × HostEntry)) (dirBaseName : String) :
    Nat × List VAction :=
  let base : Path := [dirBaseName]
  let r := processDirectory base entries
  (r.1, VAction.mkdir base :: r.2)

/-- The staged files the spec describes: the `.py`-named files of the tree
whose relative path has no component beginning with a dot, in walk order,
with their host content. -/
def pyFiles : List (String × HostEntry) → List (Path × List Nat)
  | [] => []
  | (name, entry) :: rest =>
    if isHiddenName name then pyFiles rest
    else
      match entry with
      | HostEntry.broken => pyFiles rest
      | HostEntry.dir sub =>
        (pyFiles sub).map (fun pc => (name :: pc.1, pc.2)) ++ pyFiles rest
      | HostEntry.file content =>
        if endsWithPy name then ([name], content) :: pyFiles rest
        else pyFiles rest

/-- No entry of the listing (recursively) makes the host reads throw. -/
def cleanEntries : List (String × HostEntry) → Bool
  | [] => true
  | (_, entry) :: rest =>
    (match entry with
     | HostEntry.broken => false
     | HostEntry.dir sub => cleanEntries sub
     | HostEntry.file _ => true) && cleanEntries rest

/-- The file writes of an action list, in order. -/
def writesOf : List VAction → List (Path × List Nat)
  | [] => []
  | VAction.mkdir _ :: rest => writesOf rest
  | VAction.writeFile p d :: rest => (p, d) :: writesOf rest

/-- The path an action touches. -/
def actionPath : VAction → Path
  | VAction.mkdir p => p
  | VAction.writeFile p _ => p

/-- The loop's host reads on this entry do not throw: any entry except a
non-hidden `broken` one (a hidden broken entry is skipped before any
read touches it). -/
def entryReadable : String × HostEntry → Bool
  | (name, HostEntry.broken) => isHiddenName name
  | _ => true

/-- A path that lies at or below `base` through non-hidden segments only. -/
def underCleanSuffix (base p : Path) : Prop :=
  ∃ q, p = base ++ q ∧ ∀ s ∈ q, isHiddenName s = false

/-- Replay an action list against a virtual filesystem (path to file
content); `mkdir` does not change any file, a write sets the path. -/
def runActions (acts : List VAction) (vfs : Path → Option (List Nat)) :
    Path → Option (List Nat) :=
  match acts with
  | [] => vfs
  | VAction.mkdir _ :: rest => runActions rest vfs
  | VAction.writeFile p d :: rest =>
    runActions rest (fun q => if q = p then some d else vfs q)

/-! ## Helper lemmas -/

theorem basename_concat (p : Path) (s : String) : basename (p ++ [s]) = s := by
  simp [basename]

theorem hyphenToUnderscoreChar_idem (c : Char) :
    hyphenToUnderscoreChar (hyphenToUnderscoreChar c) = hyphenToUnderscoreChar c := by
  by_cases hc : c = '-' <;> simp [hyphenToUnderscoreChar, hc]

theorem hyphenToUnderscore_idem (s : String) :
    hyphenToUnderscore (hyphenToUnderscore s) = hyphenToUnderscore s := by
  simp [hyphenToUnderscore, String.toList, List.map_map]
  congr 1
  exact List.map_congr_left (fun c _ => hyphenToUnderscoreChar_idem c)

/-! ## Concrete fixtures for witnesses and counterexamples -/

/-- An ambient environment for concrete runs. -/
def envC : HostEnv where
  dirname := ["app", "src"]
  cwd := ["work"]
  chukVirtualShellPath := none

/-- A host with a self-nested package directory `proj/proj`. -/
def fsNested : HostFs where
  kind := fun p =>
    if p = ["proj"] ∨ p = ["proj", "proj"] then EntryKind.directory
    else EntryKind.absent
  listing := fun _ => none

/-- A host holding nothing at all. -/
def fsEmptyHost : HostFs where
  kind := fun _ => EntryKind.absent
  listing := fun _ => none

/-- A host whose only entry is the hyphen-named candidate directory
`pkg-a`, with no nested `pkg-a/pkg_a`. -/
def fsHyphenCandidate : HostFs where
  kind := fun p => if p = ["pkg-a"] then EntryKind.directory else EntryKind.absent
  listing := fun _ => none

/-! ## C2: candidate-path resolution -/

/-- C2: for every existing candidate path `P` supplied as
`options.pythonModulePath`, if `P` joined with `basename(P)` (hyphens
folded to underscores) exists and is a directory, the resolver returns
that inner directory; otherwise it returns `P` itself. -/
theorem locate_resolves_candidate (fs : HostFs) (env : HostEnv) (P : Path)
    (hP : existsSync fs P = true) :
    locateVirtualShellDirectory fs env { pythonModulePath := some P } =
      (if (existsSync fs (P ++ [hyphenToUnderscore (basename P)])
          && isDirectorySync fs (P ++ [hyphenToUnderscore (basename P)])) = true then
        Except.ok (P ++ [hyphenToUnderscore (basename P)])
      else
        Except.ok P) := by
  simp [locateVirtualShellDirectory, hP]

/-- Witness for C2: on the concrete self-nested host, the resolver applied
to `proj` returns the inner `proj/proj`. -/
theorem locate_resolves_candidate_witness :
    existsSync fsNested ["proj"] = true ∧
    locateVirtualShellDirectory fsNested envC { pythonModulePath := some ["proj"] } =
      Except.ok ["proj", "proj"] := by
  refine ⟨by decide, ?_⟩
  rw [locate_resolves_candidate fsNested envC ["proj"] (by decide)]
  rfl

/-! ## C3: failure when nothing qualifies -/

/-- C3 counterexample: on a host where no candidate and no fallback
location exists, the resolver does fail, but with the fixed message, which
does not name the attempted location `../chuk_virtual_shell` (nor any
other attempted path): the claim that the message names every attempted
location is false. -/
theorem locate_failure_message_omits_locations :
    locateVirtualShellDirectory fsEmptyHost envC {} =
      Except.error virtualShellNotFoundMessage ∧
    ["..", "chuk_virtual_shell"] ∈ possibleLocations envC ∧
    containsSub (renderPath ["..", "chuk_virtual_shell"]) virtualShellNotFoundMessage
      = false := by
  refine ⟨rfl, by decide, by decide⟩

/-- C3 (amended): whenever no supplied candidate path exists and no
fallback location both exists and passes the looks-like-a-package check,
the resolver fails with the error carrying the fixed
could-not-find message; that message is a constant and does not name the
attempted locations. -/
theorem locate_failure_fixed_message (fs : HostFs) (env : HostEnv)
    (options : ShellOptions)
    (hcand : ∀ P, options.pythonModulePath = some P → existsSync fs P = false)
    (hfall : ∀ location ∈ possibleLocations env,
        (existsSync fs location && isValidPythonModule fs location) = false) :
    locateVirtualShellDirectory fs env options =
      Except.error virtualShellNotFoundMessage ∧
    containsSub (renderPath ["..", "chuk_virtual_shell"]) virtualShellNotFoundMessage
      = false := by
  have hfind : (possibleLocations env).find?
      (fun location => existsSync fs location && isValidPythonModule fs location)
      = none := by
    rw [List.find?_eq_none]
    intro a ha
    simp [hfall a ha]
  refine ⟨?_, by decide⟩
  rcases hopt : options.pythonModulePath with _ | P
  · simp [locateVirtualShellDirectory, hopt, hfind]
  · have hne := hcand P hopt
    simp [locateVirtualShellDirectory, hopt, hne, hfind]

/-- Witness for C3 (amended) at the empty host. -/
theorem locate_failure_fixed_message_witness :
    locateVirtualShellDirectory fsEmptyHost envC {} =
      Except.error virtualShellNotFoundMessage := by
  exact (locate_failure_fixed_message fsEmptyHost envC {}
    (by intro P h; cases h) (by decide)).1

/-! ## C4: derivation of the package name -/

/-- C4 counterexample: with candidate directory `pkg-a` and no nested
subdirectory, the resolver returns `pkg-a` itself and the package name is
its basename `pkg-a` verbatim, not the hyphen-folded `pkg_a` the claim
requires. -/
theorem packageName_keeps_hyphens :
    resolvePackage fsHyphenCandidate envC { pythonModulePath := some ["pkg-a"] } =
      Except.ok (["pkg-a"], "pkg-a") ∧
    hyphenToUnderscore (basename ["pkg-a"]) = "pkg_a" ∧
    ("pkg-a" : String) ≠ "pkg_a" := by
  refine ⟨rfl, by decide, by decide⟩

/-- C4 (amended): the package name is the final segment of the resolved
host directory with no hyphen folding applied.  In the nested-package case
that segment is itself the hyphen-folded basename of the candidate, so the
claimed hyphens-to-underscores invariant does hold there; in the case
where the candidate itself is returned, the name is the candidate's
basename verbatim (hyphens preserved). -/
theorem packageName_from_resolved_segment (fs : HostFs) (env : HostEnv) (P : Path)
    (hP : existsSync fs P = true) :
    ((existsSync fs (P ++ [hyphenToUnderscore (basename P)])
        && isDirectorySync fs (P ++ [hyphenToUnderscore (basename P)])) = true →
      resolvePackage fs env { pythonModulePath := some P } =
        Except.ok (P ++ [hyphenToUnderscore (basename P)],
          hyphenToUnderscore
            (basename (P ++ [hyphenToUnderscore (basename P)])))) ∧
    ((existsSync fs (P ++ [hyphenToUnderscore (basename P)])
        && isDirectorySync fs (P ++ [hyphenToUnderscore (basename P)])) = false →
      resolvePackage fs env { pythonModulePath := some P } =
        Except.ok (P, basename P)) := by
  constructor
  · intro hin
    simp [resolvePackage, locateVirtualShellDirectory, hP, hin, Except.map,
      basename_concat, hyphenToUnderscore_idem]
  · intro hin
    simp [resolvePackage, locateVirtualShellDirectory, hP, hin, Except.map]

/-- Witness for C4 (amended): the nested branch at the concrete
self-nested host, and the verbatim branch at the hyphen-named host. -/
theorem packageName_from_resolved_segment_witness :
    resolvePackage fsNested envC { pythonModulePath := some ["proj"] } =
      Except.ok (["proj", "proj"],
        hyphenToUnderscore (basename (["proj"] ++ [hyphenToUnderscore (basename ["proj"])]))) ∧
    resolvePackage fsHyphenCandidate envC { pythonModulePath := some ["pkg-a"] } =
      Except.ok (["pkg-a"], basename ["pkg-a"]) := by
  constructor
  · exact (packageName_from_resolved_segment fsNested envC ["proj"] (by decide)).1
      (by decide)
  · exact (packageName_from_resolved_segment fsHyphenCandidate envC ["pkg-a"]
      (by decide)).2 (by decide)

/-! ## C8 and C10: script selection -/

/-- A host whose only file is the basic built-in script in the primary
scripts directory. -/
def fsBasicOnly : HostFs where
  kind := fun p =>
    if p = scriptBasePath envC ++ ["pyodide_basic_main.py"] then EntryKind.file
    else EntryKind.absent
  listing := fun _ => none

/-- A host whose only file is a custom script at `cs.py`. -/
def fsCustomScript : HostFs where
  kind := fun p => if p = ["cs.py"] then EntryKind.file else EntryKind.absent
  listing := fun _ => none

/-- C8 counterexample: with no custom script, the enhanced variant
requested, the enhanced script absent from the primary location and from
every alternate location, `getScriptPath` does not fail: it returns the
basic script of the primary directory.  The claim that it fails with
`ScriptNotFoundError` under exactly these conditions is false. -/
theorem getScriptPath_succeeds_despite_missing_enhanced :
    existsSync fsBasicOnly (scriptBasePath envC ++ [scriptFileNameFor "enhanced"])
      = false ∧
    existsSync fsBasicOnly (envC.cwd ++ ["python_scripts", scriptFileNameFor "enhanced"])
      = false ∧
    existsSync fsBasicOnly (envC.cwd ++ [scriptFileNameFor "enhanced"]) = false ∧
    existsSync fsBasicOnly (envC.dirname ++ [scriptFileNameFor "enhanced"]) = false ∧
    getScriptPath fsBasicOnly envC {} "enhanced" =
      Except.ok (scriptBasePath envC ++ ["pyodide_basic_main.py"]) := by
  refine ⟨by decide, by decide, by decide, by decide, rfl⟩

/-- C8 (amended): an existing custom script path always wins, for any
requested variant; and when no custom path is usable, the requested script
is missing from the primary location and from every alternate location,
and the basic built-in script in the primary directory is missing as well,
`getScriptPath` fails with the script-not-found error. -/
theorem getScriptPath_selection (fs : HostFs) (env : HostEnv)
    (options : ShellOptions) (scriptType : String) :
    (∀ p, options.customScriptPath = some p → existsSync fs p = true →
      getScriptPath fs env options scriptType = Except.ok p) ∧
    ((∀ p, options.customScriptPath = some p → existsSync fs p = false) →
      existsSync fs (scriptBasePath env ++ [scriptFileNameFor scriptType]) = false →
      (∀ location ∈ alternateLocationsFor env (scriptFileNameFor scriptType),
        existsSync fs location = false) →
      existsSync fs (scriptBasePath env ++ ["pyodide_basic_main.py"]) = false →
      getScriptPath fs env options scriptType =
        Except.error scriptNotFoundMessage) := by
  constructor
  · intro p hp hex
    simp [getScriptPath, hp, hex]
  · intro hcustom hprimary halt hbasic
    have hfind : (alternateLocationsFor env (scriptFileNameFor scriptType)).find?
        (fun location => existsSync fs location) = none := by
      rw [List.find?_eq_none]
      intro a ha
      simp [halt a ha]
    rcases hc : options.customScriptPath with _ | p
    · simp [getScriptPath, hc, hprimary, hfind, hbasic]
    · have hne := hcustom p hc
      simp [getScriptPath, hc, hne, hprimary, hfind, hbasic]

/-- Witness for C8 (amended): the custom script wins on the custom-script
host; the empty host fails with the script-not-found error. -/
theorem getScriptPath_selection_witness :
    getScriptPath fsCustomScript envC { customScriptPath := some ["cs.py"] }
      "enhanced" = Except.ok ["cs.py"] ∧
    getScriptPath fsEmptyHost envC {} "enhanced" =
      Except.error scriptNotFoundMessage := by
  constructor
  · exact (getScriptPath_selection fsCustomScript envC
      { customScriptPath := some ["cs.py"] } "enhanced").1 ["cs.py"] rfl (by decide)
  · exact (getScriptPath_selection fsEmptyHost envC {} "enhanced").2
      (by intro p h; cases h) (by decide) (by decide) (by decide)

/-- C10: when the enhanced variant is requested, no custom script is
usable, and the enhanced script exists neither at the primary location nor
at any alternate location, `getScriptPath` silently falls back to the
basic script in the primary scripts directory when that file exists, and
throws only when it is missing too. -/
theorem enhanced_missing_falls_back_to_basic (fs : HostFs) (env : HostEnv)
    (options : ShellOptions)
    (hcustom : ∀ p, options.customScriptPath = some p → existsSync fs p = false)
    (henh : existsSync fs (scriptBasePath env ++ [scriptFileNameFor "enhanced"])
      = false)
    (halt : ∀ location ∈ alternateLocationsFor env (scriptFileNameFor "enhanced"),
      existsSync fs location = false) :
    (existsSync fs (scriptBasePath env ++ ["pyodide_basic_main.py"]) = true →
      getScriptPath fs env options "enhanced" =
        Except.ok (scriptBasePath env ++ ["pyodide_basic_main.py"])) ∧
    (existsSync fs (scriptBasePath env ++ ["pyodide_basic_main.py"]) = false →
      getScriptPath fs env options "enhanced" =
        Except.error scriptNotFoundMessage) := by
  have hfind : (alternateLocationsFor env (scriptFileNameFor "enhanced")).find?
      (fun location => existsSync fs location) = none := by
    rw [List.find?_eq_none]
    intro a ha
    simp [halt a ha]
  constructor
  · intro hbasic
    rcases hc : options.customScriptPath with _ | p
    · simp [getScriptPath, hc, henh, hfind, hbasic]
    · have hne := hcustom p hc
      simp [getScriptPath, hc, hne, henh, hfind, hbasic]
  · intro hbasic
    rcases hc : options.customScriptPath with _ | p
    · simp [getScriptPath, hc, henh, hfind, hbasic]
    · have hne := hcustom p hc
      simp [getScriptPath, hc, hne, henh, hfind, hbasic]

/-- Witness for C10: the fallback branch on the basic-only host and the
throwing branch on the empty host. -/
theorem enhanced_missing_falls_back_to_basic_witness :
    getScriptPath fsBasicOnly envC { sandboxName := some "s" } "enhanced" =
      Except.ok (scriptBasePath envC ++ ["pyodide_basic_main.py"]) ∧
    getScriptPath fsEmptyHost envC { sandboxName := some "s" } "enhanced" =
      Except.error scriptNotFoundMessage := by
  constructor
  · exact (enhanced_missing_falls_back_to_basic fsBasicOnly envC
      { sandboxName := some "s" } (by intro p h; cases h) (by decide)
      (by decide)).1 (by decide)
  · exact (enhanced_missing_falls_back_to_basic fsEmptyHost envC
      { sandboxName := some "s" } (by intro p h; cases h) (by decide)
      (by decide)).2 (by decide)

/-! ## Lemmas on the placeholder scan -/

theorem processChars_nil (sandbox : Option String) : processChars sandbox [] = [] := by
  simp [processChars]

theorem processChars_cons_ne (sandbox : Option String) (c : Char) (l : List Char)
    (hc : c ≠ '$') : processChars sandbox (c :: l) = c :: processChars sandbox l := by
  rw [processChars.eq_def]
  simp [hc]

theorem processChars_append_clean (sandbox : Option String) (pre l : List Char)
    (hpre : '$' ∉ pre) :
    processChars sandbox (pre ++ l) = pre ++ processChars sandbox l := by
  induction pre with
  | nil => simp
  | cons c cs ih =>
    have hc : c ≠ '$' := fun h => hpre (by simp [h])
    have hcs : '$' ∉ cs := fun h => hpre (List.mem_cons_of_mem _ h)
    simp only [List.cons_append, processChars_cons_ne sandbox c _ hc, ih hcs]

theorem splitAtCloseBrace_append (name post : List Char) (hbrace : '\x7d' ∉ name) :
    splitAtCloseBrace (name ++ '\x7d' :: post) = some (name, post) := by
  induction name with
  | nil => simp [splitAtCloseBrace]
  | cons c cs ih =>
    have hc : c ≠ '\x7d' := fun h => hbrace (by simp [h])
    have hcs : '\x7d' ∉ cs := fun h => hbrace (List.mem_cons_of_mem _ h)
    simp [splitAtCloseBrace, hc, ih hcs]

theorem processChars_token (sandbox : Option String) (name post : List Char)
    (hname : name ≠ []) (hbrace : '\x7d' ∉ name) :
    processChars sandbox ('$' :: '\x7b' :: (name ++ '\x7d' :: post)) =
      resolveToken sandbox name ++ processChars sandbox post := by
  have hsp := splitAtCloseBrace_append name post hbrace
  rw [processChars.eq_def]
  simp only [reduceIte]
  split
  · rename_i varName after heq
    rw [hsp] at heq
    simp only [Option.some.injEq, Prod.mk.injEq] at heq
    obtain ⟨h1, h2⟩ := heq
    subst h1
    subst h2
    rw [if_neg hname]
  · rename_i heq
    rw [hsp] at heq
    cases heq

theorem processChars_subst_token (sandbox : Option String)
    (pre name post : List Char) (hpre : '$' ∉ pre) (hname : name ≠ [])
    (hbrace : '\x7d' ∉ name) :
    processChars sandbox (pre ++ placeholderToken name ++ post) =
      pre ++ resolveToken sandbox name ++ processChars sandbox post := by
  have hshape : pre ++ placeholderToken name ++ post =
      pre ++ ('$' :: '\x7b' :: (name ++ '\x7d' :: post)) := by
    simp [placeholderToken]
  rw [hshape, processChars_append_clean sandbox pre _ hpre,
    processChars_token sandbox name post hname hbrace, List.append_assoc]

/-! ## C6: sandbox placeholder resolution -/

/-- C6 counterexample: with `options.defaultSandbox` set to the empty
string, the placeholder resolves to the literal fallback `ai_sandbox`, not
to the option's value: the claim that a set option's value is substituted
is false for the (falsy) empty value. -/
theorem sandbox_placeholder_empty_option :
    processChars (some "") (placeholderToken "defaultSandbox".toList) =
      "ai_sandbox".toList ∧
    ("ai_sandbox" : String) ≠ "" := by
  constructor
  · have h := processChars_subst_token (some "") [] "defaultSandbox".toList []
      (by simp) (by decide) (by decide)
    simp only [List.nil_append, List.append_nil, processChars_nil] at h
    rw [h, resolveToken, if_pos (Or.inr rfl)]
    rfl
  · decide

/-- C6 (amended): every occurrence of the placeholder token
`defaultSandbox` (or `options.defaultSandbox`) is replaced by the value of
`options.defaultSandbox` when that option is set to a nonempty string, and
by the literal `ai_sandbox` when the option is unset or set to the empty
string. -/
theorem processScriptContent_sandbox_placeholder (sandbox : Option String)
    (pre post : List Char) (hpre : '$' ∉ pre) :
    (processScriptContent sandbox
        (String.mk (pre ++ placeholderToken "defaultSandbox".toList ++ post)) =
      String.mk (pre ++ (defaultSandboxValue sandbox).toList ++
        processChars sandbox post)) ∧
    (processScriptContent sandbox
        (String.mk (pre ++ placeholderToken "options.defaultSandbox".toList ++ post)) =
      String.mk (pre ++ (defaultSandboxValue sandbox).toList ++
        processChars sandbox post)) ∧
    (∀ v, sandbox = some v → v ≠ "" → defaultSandboxValue sandbox = v) ∧
    (sandbox = none ∨ sandbox = some "" → defaultSandboxValue sandbox = "ai_sandbox") := by
  refine ⟨?_, ?_, ?_, ?_⟩
  · rw [processScriptContent]
    rw [show (String.mk (pre ++ placeholderToken "defaultSandbox".toList ++ post)).toList
        = pre ++ placeholderToken "defaultSandbox".toList ++ post from rfl]
    rw [processChars_subst_token sandbox pre _ post hpre (by decide) (by decide),
      resolveToken, if_pos (Or.inr rfl)]
  · rw [processScriptContent]
    rw [show (String.mk (pre ++ placeholderToken "options.defaultSandbox".toList ++ post)).toList
        = pre ++ placeholderToken "options.defaultSandbox".toList ++ post from rfl]
    rw [processChars_subst_token sandbox pre _ post hpre (by decide) (by decide),
      resolveToken, if_pos (Or.inl rfl)]
  · intro v hv hne
    simp [defaultSandboxValue, hv, hne]
  · rintro (h | h) <;> simp [defaultSandboxValue, h]

/-- Witness for C6 (amended): concrete bodies with a set nonempty option
and with no option at all. -/
theorem processScriptContent_sandbox_placeholder_witness :
    processScriptContent (some "box")
        (String.mk ("run ".toList ++ placeholderToken "defaultSandbox".toList ++ [])) =
      String.mk ("run ".toList ++ (defaultSandboxValue (some "box")).toList ++
        processChars (some "box") []) ∧
    defaultSandboxValue (some "box") = "box" ∧
    processScriptContent none
        (String.mk ([] ++ placeholderToken "options.defaultSandbox".toList ++ [])) =
      String.mk ([] ++ (defaultSandboxValue none).toList ++ processChars none []) ∧
    defaultSandboxValue none = "ai_sandbox" := by
  refine ⟨?_, ?_, ?_, ?_⟩
  · exact (processScriptContent_sandbox_placeholder (some "box") "run ".toList []
      (by decide)).1
  · exact (processScriptContent_sandbox_placeholder (some "box") "run ".toList []
      (by decide)).2.2.1 "box" rfl (by decide)
  · exact (processScriptContent_sandbox_placeholder none [] [] (by simp)).2.1
  · exact (processScriptContent_sandbox_placeholder none [] [] (by simp)).2.2.2
      (Or.inl rfl)

/-! ## C7: unknown placeholders pass through -/

/-- C7: a placeholder token whose (nonempty, brace-free) inner name is
neither `defaultSandbox` nor `options.defaultSandbox` is kept
character-for-character in the output, and processing continues normally
after it. -/
theorem unknown_placeholder_passes_through (sandbox : Option String)
    (pre name post : List Char) (hpre : '$' ∉ pre) (hname : name ≠ [])
    (hbrace : '\x7d' ∉ name)
    (hunknown : name ≠ "options.defaultSandbox".toList ∧ name ≠ "defaultSandbox".toList) :
    processChars sandbox (pre ++ placeholderToken name ++ post) =
      pre ++ placeholderToken name ++ processChars sandbox post := by
  rw [processChars_subst_token sandbox pre name post hpre hname hbrace]
  rw [resolveToken, if_neg (not_or.mpr hunknown)]
  simp [placeholderToken]

/-- Witness for C7 at a concrete body with an unknown key. -/
theorem unknown_placeholder_passes_through_witness :
    processChars (some "x") ("a ".toList ++ placeholderToken "unknown.key".toList ++ " b".toList) =
      "a ".toList ++ placeholderToken "unknown.key".toList ++ " b".toList := by
  have h := unknown_placeholder_passes_through (some "x") "a ".toList
    "unknown.key".toList " b".toList (by decide) (by decide) (by decide)
    ⟨by decide, by decide⟩
  rw [h]
  have htail : processChars (some "x") (" b".toList ++ []) =
      " b".toList ++ processChars (some "x") [] := by
    exact processChars_append_clean (some "x") " b".toList [] (by decide)
  simp only [List.append_nil, processChars_nil] at htail
  rw [htail]

/-! ## Lemmas: the base64 transfer round trip -/

theorem b64val_b64char (n : Nat) (h : n < 64) : b64val (b64char n) = n := by
  unfold b64char b64val
  split_ifs <;> omega

theorem b64char_ne_61 (n : Nat) : b64char n ≠ 61 := by
  unfold b64char
  split_ifs <;> omega

theorem b64_roundtrip (l : List Nat) (h : ∀ b ∈ l, b < 256) :
    b64decode (b64encode l) = l := by
  induction l using b64encode.induct with
  | case1 => simp [b64encode, b64decode]
  | case2 a =>
    have ha : a < 256 := h a (by simp)
    simp only [b64encode, b64decode, if_true]
    rw [b64val_b64char _ (by omega), b64val_b64char _ (by omega)]
    simp
    omega
  | case3 a b =>
    have ha : a < 256 := h a (by simp)
    have hb : b < 256 := h b (by simp)
    simp only [b64encode, b64decode, if_true]
    rw [b64val_b64char _ (by omega),
      b64val_b64char _ (by omega), b64val_b64char _ (by omega),
      if_neg (b64char_ne_61 _)]
    simp
    omega
  | case4 a b c rest ih =>
    have ha : a < 256 := h a (by simp)
    have hb : b < 256 := h b (by simp)
    have hc : c < 256 := h c (by simp)
    have hrest : ∀ x ∈ rest, x < 256 := fun x hx => h x (by simp [hx])
    simp only [b64encode, b64decode]
    rw [if_neg (b64char_ne_61 _), if_neg (b64char_ne_61 _),
      b64val_b64char _ (by omega), b64val_b64char _ (by omega),
      b64val_b64char _ (by omega), b64val_b64char _ (by omega), ih hrest]
    simp
    omega

/-! ## Lemmas: the JSON-literal transfer round trip -/

theorem hexDigitVal_toHexDigit (n : Nat) (h : n < 16) :
    hexDigitVal (toHexDigit n) = n := by
  unfold toHexDigit hexDigitVal
  split_ifs <;> omega

theorem pyUnescape_escapeChar (c : Nat) (rest : List Nat) :
    pyUnescape (jsonEscapeChar c ++ rest) = c :: pyUnescape rest := by
  by_cases h34 : c = 34
  · subst h34
    simp only [jsonEscapeChar, reduceIte, List.cons_append, List.nil_append]
    rw [pyUnescape.eq_def]
    simp
  · by_cases h92 : c = 92
    · subst h92
      simp only [jsonEscapeChar, reduceIte, List.cons_append, List.nil_append]
      rw [pyUnescape.eq_def]
      simp
    · by_cases h8 : c = 8
      · subst h8
        simp only [jsonEscapeChar, reduceIte, List.cons_append, List.nil_append]
        rw [pyUnescape.eq_def]
        simp
      · by_cases h9 : c = 9
        · subst h9
          simp only [jsonEscapeChar, reduceIte, List.cons_append, List.nil_append]
          rw [pyUnescape.eq_def]
          simp
        · by_cases h10 : c = 10
          · subst h10
            simp only [jsonEscapeChar, reduceIte, List.cons_append, List.nil_append]
            rw [pyUnescape.eq_def]
            simp
          · by_cases h12 : c = 12
            · subst h12
              simp only [jsonEscapeChar, reduceIte, List.cons_append, List.nil_append]
              rw [pyUnescape.eq_def]
              simp
            · by_cases h13 : c = 13
              · subst h13
                simp only [jsonEscapeChar, reduceIte, List.cons_append, List.nil_append]
                rw [pyUnescape.eq_def]
                simp
              · by_cases hlt : c < 32
                · have hesc : jsonEscapeChar c =
                      [92, 117, 48, 48, toHexDigit (c / 16), toHexDigit (c % 16)] := by
                    simp [jsonEscapeChar, h34, h92, h8, h9, h10, h12, h13, hlt]
                  rw [hesc]
                  rw [show ([92, 117, 48, 48, toHexDigit (c / 16), toHexDigit (c % 16)] ++ rest)
                      = 92 :: 117 :: 48 :: 48 :: toHexDigit (c / 16) :: toHexDigit (c % 16) :: rest
                    from rfl]
                  rw [pyUnescape.eq_def]
                  simp only [reduceIte]
                  rw [hexDigitVal_toHexDigit _ (by omega), hexDigitVal_toHexDigit _ (by omega)]
                  simp [hexDigitVal]
                  omega
                · have hesc : jsonEscapeChar c = [c] := by
                    simp [jsonEscapeChar, h34, h92, h8, h9, h10, h12, h13, hlt]
                  rw [hesc]
                  cases rest with
                  | nil =>
                    rw [show ([c] ++ ([] : List Nat)) = [c] from rfl]
                    rw [pyUnescape.eq_def]
                    simp [pyUnescape]
                  | cons d r =>
                    rw [show ([c] ++ (d :: r)) = c :: d :: r from rfl]
                    rw [pyUnescape.eq_def]
                    simp [h92]

theorem pyUnescape_jsonEscape (l : List Nat) : pyUnescape (jsonEscape l) = l := by
  induction l with
  | nil => simp [jsonEscape, pyUnescape]
  | cons c t ih =>
    rw [jsonEscape, pyUnescape_escapeChar, ih]

/-! ## C9: the transfer encodings are lossless -/

/-- C9: for every host file content (a byte sequence), both transfer
pipelines are lossless: the base64 transfer of `copyFileToPyodide` and the
JSON-escaped-literal transfer of `loadFolder` write data into the virtual
filesystem that reads back exactly equal to the host content, for all
contents including delimiter and quote characters. -/
theorem transfer_roundtrip (content : List Nat) (hbytes : ∀ b ∈ content, b < 256)
    (vfs : Path → Option (List Nat)) (target : Path) :
    runActions (copyFileActions content target) vfs target = some content ∧
    runActions (loadFolderFileActions content target) vfs target = some content := by
  constructor
  · simp [copyFileActions, runActions, b64_roundtrip content hbytes]
  · simp [loadFolderFileActions, runActions, pyUnescape_jsonEscape content]

/-- Witness for C9 on a concrete content holding a newline, a double
quote, a backslash and a single quote. -/
theorem transfer_roundtrip_witness :
    (∀ b ∈ [72, 105, 10, 34, 92, 39], b < 256) ∧
    (runActions (copyFileActions [72, 105, 10, 34, 92, 39] ["home", "pyodide", "f.txt"])
        (fun _ => none) ["home", "pyodide", "f.txt"] = some [72, 105, 10, 34, 92, 39] ∧
      runActions (loadFolderFileActions [72, 105, 10, 34, 92, 39] ["home", "pyodide", "f.txt"])
        (fun _ => none) ["home", "pyodide", "f.txt"] = some [72, 105, 10, 34, 92, 39]) :=
  ⟨by decide, transfer_roundtrip [72, 105, 10, 34, 92, 39] (by decide)
    (fun _ => none) ["home", "pyodide", "f.txt"]⟩

/-! ## Lemmas: the directory walk -/

theorem writesOf_append (l1 l2 : List VAction) :
    writesOf (l1 ++ l2) = writesOf l1 ++ writesOf l2 := by
  induction l1 with
  | nil => simp [writesOf]
  | cons a rest ih =>
    cases a <;> simp [writesOf, ih]

theorem processEntries_nil (base : Path) : processEntries base [] = (0, []) := by
  rw [processEntries.eq_def]

theorem processEntries_cons_hidden (base : Path) (name : String)
    (entry : HostEntry) (rest : List (String × HostEntry))
    (hhid : isHiddenName name = true) :
    processEntries base ((name, entry) :: rest) = processEntries base rest := by
  rw [processEntries.eq_def]
  simp [hhid]

theorem processEntries_cons_broken (base : Path) (name : String)
    (rest : List (String × HostEntry)) (hhid : isHiddenName name = false) :
    processEntries base ((name, HostEntry.broken) :: rest) = (0, []) := by
  rw [processEntries.eq_def]
  simp [hhid]

theorem processEntries_cons_dir (base : Path) (name : String)
    (sub rest : List (String × HostEntry)) (hhid : isHiddenName name = false) :
    processEntries base ((name, HostEntry.dir sub) :: rest) =
      ((processEntries (base ++ [name]) sub).1 + (processEntries base rest).1,
        (VAction.mkdir (base ++ [name]) :: (processEntries (base ++ [name]) sub).2)
          ++ (processEntries base rest).2) := by
  rw [processEntries.eq_def]
  simp [hhid]

theorem processEntries_cons_file_py (base : Path) (name : String)
    (content : List Nat) (rest : List (String × HostEntry))
    (hhid : isHiddenName name = false) (hpy : endsWithPy name = true) :
    processEntries base ((name, HostEntry.file content) :: rest) =
      (1 + (processEntries base rest).1,
        copyFileActions content (base ++ [name]) ++ (processEntries base rest).2) := by
  rw [processEntries.eq_def]
  simp [hhid, hpy]

theorem processEntries_cons_file_other (base : Path) (name : String)
    (content : List Nat) (rest : List (String × HostEntry))
    (hhid : isHiddenName name = false) (hpy : endsWithPy name = false) :
    processEntries base ((name, HostEntry.file content) :: rest) =
      processEntries base rest := by
  rw [processEntries.eq_def]
  simp [hhid, hpy]

theorem pyFiles_nil : pyFiles [] = [] := by
  rw [pyFiles.eq_def]

theorem pyFiles_cons_hidden (name : String) (entry : HostEntry)
    (rest : List (String × HostEntry)) (hhid : isHiddenName name = true) :
    pyFiles ((name, entry) :: rest) = pyFiles rest := by
  rw [pyFiles.eq_def]
  simp [hhid]

theorem pyFiles_cons_broken (name : String) (rest : List (String × HostEntry))
    (hhid : isHiddenName name = false) :
    pyFiles ((name, HostEntry.broken) :: rest) = pyFiles rest := by
  rw [pyFiles.eq_def]
  simp [hhid]

theorem pyFiles_cons_dir (name : String) (sub rest : List (String × HostEntry))
    (hhid : isHiddenName name = false) :
    pyFiles ((name, HostEntry.dir sub) :: rest) =
      (pyFiles sub).map (fun pc => (name :: pc.1, pc.2)) ++ pyFiles rest := by
  rw [pyFiles.eq_def]
  simp [hhid]

theorem pyFiles_cons_file_py (name : String) (content : List Nat)
    (rest : List (String × HostEntry)) (hhid : isHiddenName name = false)
    (hpy : endsWithPy name = true) :
    pyFiles ((name, HostEntry.file content) :: rest) =
      ([name], content) :: pyFiles rest := by
  rw [pyFiles.eq_def]
  simp [hhid, hpy]

theorem pyFiles_cons_file_other (name : String) (content : List Nat)
    (rest : List (String × HostEntry)) (hhid : isHiddenName name = false)
    (hpy : endsWithPy name = false) :
    pyFiles ((name, HostEntry.file content) :: rest) = pyFiles rest := by
  rw [pyFiles.eq_def]
  simp [hhid, hpy]

theorem cleanEntries_cons (name : String) (entry : HostEntry)
    (rest : List (String × HostEntry)) :
    cleanEntries ((name, entry) :: rest) =
      ((match entry with
        | HostEntry.broken => false
        | HostEntry.dir sub => cleanEntries sub
        | HostEntry.file _ => true) && cleanEntries rest) := by
  rw [cleanEntries.eq_def]

theorem processEntries_clean_spec (base : Path) (entries : List (String × HostEntry))
    (hclean : cleanEntries entries = true) :
    (processEntries base entries).1 = (pyFiles entries).length ∧
    writesOf (processEntries base entries).2 =
      (pyFiles entries).map
        (fun pc => (base ++ pc.1, b64decode (b64encode pc.2))) := by
  induction base, entries using processEntries.induct with
  | case1 base => simp [processEntries_nil, pyFiles_nil, writesOf]
  | case2 base name entry rest hhid ih =>
    rw [cleanEntries_cons, Bool.and_eq_true] at hclean
    obtain ⟨ih1, ih2⟩ := ih hclean.2
    rw [processEntries_cons_hidden base name entry rest hhid,
      pyFiles_cons_hidden name entry rest hhid]
    exact ⟨ih1, ih2⟩
  | case3 base name rest hhid =>
    rw [cleanEntries_cons, Bool.and_eq_true] at hclean
    simp at hclean
  | case4 base name rest hhid sub ihsub ihrest =>
    rw [Bool.not_eq_true] at hhid
    rw [cleanEntries_cons, Bool.and_eq_true] at hclean
    obtain ⟨is1, is2⟩ := ihsub hclean.1
    obtain ⟨ir1, ir2⟩ := ihrest hclean.2
    rw [processEntries_cons_dir base name sub rest hhid,
      pyFiles_cons_dir name sub rest hhid]
    constructor
    · simp [is1, ir1]
    · simp [writesOf, writesOf_append, is2, ir2, List.map_map, Function.comp,
        List.append_assoc]
  | case5 base name rest hhid content hpy ih =>
    rw [Bool.not_eq_true] at hhid
    rw [cleanEntries_cons, Bool.and_eq_true] at hclean
    obtain ⟨ih1, ih2⟩ := ih hclean.2
    rw [processEntries_cons_file_py base name content rest hhid hpy,
      pyFiles_cons_file_py name content rest hhid hpy]
    constructor
    · simp [ih1]
      omega
    · simp [copyFileActions, writesOf, writesOf_append, ih2]
  | case6 base name rest hhid content hpy ih =>
    rw [Bool.not_eq_true] at hhid
    rw [Bool.not_eq_true] at hpy
    rw [cleanEntries_cons, Bool.and_eq_true] at hclean
    obtain ⟨ih1, ih2⟩ := ih hclean.2
    rw [processEntries_cons_file_other base name content rest hhid hpy,
      pyFiles_cons_file_other name content rest hhid hpy]
    exact ⟨ih1, ih2⟩

theorem processEntries_paths (base : Path) (entries : List (String × HostEntry)) :
    ∀ a ∈ (processEntries base entries).2, underCleanSuffix base (actionPath a) := by
  induction base, entries using processEntries.induct with
  | case1 base => simp [processEntries_nil]
  | case2 base name entry rest hhid ih =>
    rw [processEntries_cons_hidden base name entry rest hhid]
    exact ih
  | case3 base name rest hhid =>
    rw [Bool.not_eq_true] at hhid
    rw [processEntries_cons_broken base name rest hhid]
    simp
  | case4 base name rest hhid sub ihsub ihrest =>
    rw [Bool.not_eq_true] at hhid
    rw [processEntries_cons_dir base name sub rest hhid]
    intro a ha
    simp only [List.mem_append, List.mem_cons] at ha
    rcases ha with (ha | ha) | ha
    · subst ha
      exact ⟨[name], by simp [actionPath], by simp [hhid]⟩
    · obtain ⟨q, hq, hcleanq⟩ := ihsub a ha
      refine ⟨name :: q, ?_, ?_⟩
      · rw [hq, List.append_assoc]
        simp
      · intro s hs
        rcases List.mem_cons.mp hs with h | h
        · rw [h]; exact hhid
        · exact hcleanq s h
    · exact ihrest a ha
  | case5 base name rest hhid content hpy ih =>
    rw [Bool.not_eq_true] at hhid
    rw [processEntries_cons_file_py base name content rest hhid hpy]
    intro a ha
    simp only [copyFileActions, List.mem_append, List.mem_cons,
      List.not_mem_nil, or_false] at ha
    rcases ha with (ha | ha) | ha
    · subst ha
      refine ⟨[], ?_, by simp⟩
      simp [actionPath, List.dropLast_concat]
    · subst ha
      exact ⟨[name], by simp [actionPath], by simp [hhid]⟩
    · exact ih a ha
  | case6 base name rest hhid content hpy ih =>
    rw [Bool.not_eq_true] at hhid
    rw [Bool.not_eq_true] at hpy
    rw [processEntries_cons_file_other base name content rest hhid hpy]
    exact ih

theorem processEntries_count_eq_writes (base : Path)
    (entries : List (String × HostEntry)) :
    (processEntries base entries).1 =
      (writesOf (processEntries base entries).2).length := by
  induction base, entries using processEntries.induct with
  | case1 base => simp [processEntries_nil, writesOf]
  | case2 base name entry rest hhid ih =>
    rw [processEntries_cons_hidden base name entry rest hhid]
    exact ih
  | case3 base name rest hhid =>
    rw [Bool.not_eq_true] at hhid
    rw [processEntries_cons_broken base name rest hhid]
    simp [writesOf]
  | case4 base name rest hhid sub ihsub ihrest =>
    rw [Bool.not_eq_true] at hhid
    rw [processEntries_cons_dir base name sub rest hhid]
    simp [writesOf, writesOf_append, ihsub, ihrest]
  | case5 base name rest hhid content hpy ih =>
    rw [Bool.not_eq_true] at hhid
    rw [processEntries_cons_file_py base name content rest hhid hpy]
    simp [copyFileActions, writesOf, writesOf_append, ih]
    omega
  | case6 base name rest hhid content hpy ih =>
    rw [Bool.not_eq_true] at hhid
    rw [Bool.not_eq_true] at hpy
    rw [processEntries_cons_file_other base name content rest hhid hpy]
    exact ih

/-! ## C1: the walk stages exactly the non-hidden python files -/

/-- A concrete host tree: a staged file, a hidden directory holding a
python file, and a subdirectory holding one python and one other file. -/
def demoTree : List (String × HostEntry) :=
  [("a.py", HostEntry.file [104, 105]),
   (".cache", HostEntry.dir [("x.py", HostEntry.file [120])]),
   ("sub", HostEntry.dir [("b.py", HostEntry.file [98]), ("c.txt", HostEntry.file [99])])]

/-- C1: on an error-free host directory, `loadPythonModules` (through
`processDirectory`) writes exactly the files whose name ends in `.py` and
whose relative path has no component beginning with a dot, returns their
number as its file count, and touches no path under a hidden entry: every
action's path extends the target through non-hidden segments only. -/
theorem loadPythonModules_stages_exactly (entries : List (String × HostEntry))
    (dirBaseName : String) (hclean : cleanEntries entries = true) :
    (loadPythonModules entries dirBaseName).1 = (pyFiles entries).length ∧
    writesOf (loadPythonModules entries dirBaseName).2 =
      (pyFiles entries).map
        (fun pc => ([dirBaseName] ++ pc.1, b64decode (b64encode pc.2))) ∧
    ∀ a ∈ (loadPythonModules entries dirBaseName).2,
      underCleanSuffix [dirBaseName] (actionPath a) := by
  have hspec := processEntries_clean_spec [dirBaseName] entries hclean
  have hpaths := processEntries_paths [dirBaseName] entries
  refine ⟨?_, ?_, ?_⟩
  · simpa [loadPythonModules, processDirectory] using hspec.1
  · simpa [loadPythonModules, processDirectory, writesOf] using hspec.2
  · intro a ha
    simp only [loadPythonModules, processDirectory, List.mem_cons] at ha
    rcases ha with ha | ha | ha
    · subst ha
      exact ⟨[], by simp [actionPath], by simp⟩
    · subst ha
      exact ⟨[], by simp [actionPath], by simp⟩
    · exact hpaths a ha

/-- Witness for C1 on the concrete demo tree (two qualifying files:
`a.py` and `sub/b.py`; the hidden `.cache` subtree contributes nothing). -/
theorem loadPythonModules_stages_exactly_witness :
    cleanEntries demoTree = true ∧
    (loadPythonModules demoTree "proj").1 = (pyFiles demoTree).length ∧
    writesOf (loadPythonModules demoTree "proj").2 =
      (pyFiles demoTree).map
        (fun pc => (["proj"] ++ pc.1, b64decode (b64encode pc.2))) ∧
    pyFiles demoTree = [(["a.py"], [104, 105]), (["sub", "b.py"], [98])] := by
  have hclean : cleanEntries demoTree = true := by
    simp [demoTree, cleanEntries]
  have h := loadPythonModules_stages_exactly demoTree "proj" hclean
  refine ⟨hclean, h.1, h.2.1, ?_⟩
  have h1 : isHiddenName "a.py" = false := rfl
  have h2 : isHiddenName ".cache" = true := rfl
  have h3 : isHiddenName "sub" = false := rfl
  have h4 : isHiddenName "b.py" = false := rfl
  have h5 : isHiddenName "c.txt" = false := rfl
  have h6 : endsWithPy "a.py" = true := rfl
  have h7 : endsWithPy "b.py" = true := rfl
  have h8 : endsWithPy "c.txt" = false := rfl
  simp [demoTree, pyFiles, h1, h2, h3, h4, h5, h6, h7, h8]

/-! ## C5: a read error abandons the rest of one listing only -/

/-- C5 counterexample: with a non-hidden entry `bad` whose read throws
listed before `good.py`, the walk of that directory stops at `bad`: the
sibling `good.py` is not transferred and the count is `0`, although
`good.py` is a qualifying file of the listing.  The claim that only the
failing entry is skipped and all siblings are still walked is false. -/
theorem processDirectory_error_skips_rest_of_listing :
    processEntries ["v"] [("bad", HostEntry.broken), ("good.py", HostEntry.file [103])]
      = (0, []) ∧
    pyFiles [("bad", HostEntry.broken), ("good.py", HostEntry.file [103])]
      = [(["good.py"], [103])] := by
  have h1 : isHiddenName "bad" = false := rfl
  have h2 : isHiddenName "good.py" = false := rfl
  have h3 : endsWithPy "good.py" = true := rfl
  constructor
  · simp [processEntries, h1]
  · simp [pyFiles, h1, h2, h3]

/-- C5 (amended): an error reading one host entry of a directory abandons
the remainder of that directory's listing — the failing entry and all its
later siblings are skipped — while entries processed before it are kept
and the walk elsewhere in the tree is unaffected; the returned count
equals the number of file writes actually performed. -/
theorem processDirectory_error_truncates_listing (base : Path)
    (pre post : List (String × HostEntry)) (name : String)
    (hname : isHiddenName name = false)
    (hpre : pre.all entryReadable = true) :
    processEntries base (pre ++ (name, HostEntry.broken) :: post) =
      processEntries base pre ∧
    ∀ entries, (processEntries base entries).1 =
      (writesOf (processEntries base entries).2).length := by
  refine ⟨?_, fun entries => processEntries_count_eq_writes base entries⟩
  revert hpre
  induction pre generalizing base with
  | nil =>
    intro hpre
    rw [List.nil_append, processEntries_cons_broken base name post hname,
      processEntries_nil]
  | cons p pre' ih =>
    intro hpre
    obtain ⟨n, e⟩ := p
    rw [List.all_cons, Bool.and_eq_true] at hpre
    obtain ⟨hp, hpre'⟩ := hpre
    cases hh : isHiddenName n with
    | true =>
      rw [List.cons_append, processEntries_cons_hidden base n e _ hh,
        processEntries_cons_hidden base n e pre' hh]
      exact ih base hpre'
    | false =>
      cases e with
      | broken =>
        rw [entryReadable, hh] at hp
        cases hp
      | dir sub =>
        rw [List.cons_append, processEntries_cons_dir base n sub _ hh,
          processEntries_cons_dir base n sub pre' hh, ih base hpre']
      | file content =>
        cases hpy : endsWithPy n with
        | true =>
          rw [List.cons_append, processEntries_cons_file_py base n content _ hh hpy,
            processEntries_cons_file_py base n content pre' hh hpy, ih base hpre']
        | false =>
          rw [List.cons_append,
            processEntries_cons_file_other base n content _ hh hpy,
            processEntries_cons_file_other base n content pre' hh hpy]
          exact ih base hpre'

/-- Witness for C5 (amended) at a concrete listing. -/
theorem processDirectory_error_truncates_listing_witness :
    processEntries ["w"]
        ([("ok.py", HostEntry.file [1])] ++ ("boom", HostEntry.broken) ::
          [("later.py", HostEntry.file [2])]) =
      processEntries ["w"] [("ok.py", HostEntry.file [1])] ∧
    (processEntries ["w"] [("ok.py", HostEntry.file [1])]).1 =
      (writesOf (processEntries ["w"] [("ok.py", HostEntry.file [1])]).2).length := by
  have h := processDirectory_error_truncates_listing ["w"]
    [("ok.py", HostEntry.file [1])] [("later.py", HostEntry.file [2])] "boom"
    rfl (by rfl)
  exact ⟨h.1, h.2 [("ok.py", HostEntry.file [1])]⟩

end PyodideHost
